import Mathlib

/-!
# Verification of `mdfiles` (tebeka/mdfiles, `src/main.rs`)

A shallow embedding of the command-line utility in `src/main.rs`, which scans a
directory tree for regular files whose name ends with a configured suffix and
whose last-modification date (in the local time zone) equals a target date, and
prints each match as a Markdown list item.

The embedding models:

* `NaiveDate` (from the `chrono` crate) as a record of year/month/day;
* `parse_ymd`, the behaviour of `chrono::NaiveDate::parse_from_str(s, "%Y-%m-%d")`:
  for each numeric field chrono first skips leading whitespace, then consumes
  between 1 and `width` ASCII digits (`width` is 4 for the year, 2 for month and
  day; an explicitly signed year may have arbitrarily many digits), literals
  (the two dashes) must match exactly, the whole input must be consumed, and the
  resulting fields must form a real proleptic-Gregorian calendar date inside
  chrono's representable year range;
* `get_date`, `format_as_markdown`, `file_iterator`, `has_suffix`, `match_date`
  and `main` from `src/main.rs`, with the ambient effects (clock, time-zone
  conversion, file system) passed in as explicit values.
-/

/-- chrono `NaiveDate`: a calendar date with no time-of-day component. -/
structure NaiveDate where
  year : Int
  month : Nat
  day : Nat
deriving DecidableEq, Repr

/-- Smallest year representable by chrono's `NaiveDate` (`i32::MIN >> 13`). -/
def minYear : Int := -262144

/-- Largest year representable by chrono's `NaiveDate` (`i32::MAX >> 13`). -/
def maxYear : Int := 262143

/-- Proleptic-Gregorian leap-year rule, as chrono computes it. -/
def isLeapYear (y : Int) : Bool :=
  y % 4 == 0 && (y % 100 != 0 || y % 400 == 0)

/-- Number of days of month `m` of year `y` in the proleptic Gregorian
calendar (0 for a month number outside 1–12), as chrono's date validation
uses it. -/
def daysInMonth (y : Int) (m : Nat) : Nat :=
  match m with
  | 1 => 31
  | 2 => if isLeapYear y then 29 else 28
  | 3 => 31
  | 4 => 30
  | 5 => 31
  | 6 => 30
  | 7 => 31
  | 8 => 31
  | 9 => 30
  | 10 => 31
  | 11 => 30
  | 12 => 31
  | _ => 0

/-- chrono `NaiveDate::from_ymd_opt`: `some` exactly when the fields form a
real calendar date in chrono's representable range. -/
def from_ymd_opt (y : Int) (m d : Nat) : Option NaiveDate :=
  if minYear ≤ y ∧ y ≤ maxYear ∧ 1 ≤ m ∧ m ≤ 12 ∧ 1 ≤ d ∧ d ≤ daysInMonth y m then
    some ⟨y, m, d⟩
  else
    none

/-- The fields of `dt` form a real calendar date in chrono's representable
range (the invariant every constructed `chrono::NaiveDate` satisfies). -/
def dateValid (dt : NaiveDate) : Prop :=
  minYear ≤ dt.year ∧ dt.year ≤ maxYear ∧ 1 ≤ dt.month ∧ dt.month ≤ 12 ∧
    1 ≤ dt.day ∧ dt.day ≤ daysInMonth dt.year dt.month

instance (dt : NaiveDate) : Decidable (dateValid dt) := by
  unfold dateValid; infer_instance

/-- Rust `char::is_whitespace` (Unicode `White_Space`), which chrono's parser
applies via `str::trim_start` before every numeric field. -/
def rustIsWhitespace (c : Char) : Bool :=
  c.toNat = 0x20 || c.toNat = 0x09 || c.toNat = 0x0A || c.toNat = 0x0B ||
  c.toNat = 0x0C || c.toNat = 0x0D || c.toNat = 0x85 || c.toNat = 0xA0 ||
  c.toNat = 0x1680 || (0x2000 ≤ c.toNat && c.toNat ≤ 0x200A) ||
  c.toNat = 0x2028 || c.toNat = 0x2029 || c.toNat = 0x202F ||
  c.toNat = 0x205F || c.toNat = 0x3000

/-- `i64::MAX`; chrono's digit scanner fails once the accumulated value would
overflow an `i64`. -/
def i64Max : Nat := 9223372036854775807

/-- chrono `scan::number(s, lo, hi)`: consume up to `hi` leading ASCII digits;
fail when fewer than `lo` digits are present or the value overflows `i64`;
return the value and the unconsumed remainder. -/
def scanNumber (lo hi : Nat) (cs : List Char) : Option (Nat × List Char) :=
  let digits := (cs.take hi).takeWhile Char.isDigit
  if digits.length < lo then none
  else
    let n := digits.foldl (fun acc c => acc * 10 + (c.toNat - 48)) 0
    if n ≤ i64Max then some (n, cs.drop digits.length) else none

/-- chrono's parsing of the `%Y` item: skip leading whitespace; a year with an
explicit sign may have any number of digits, an unsigned year at most four. -/
def scanYear (cs : List Char) : Option (Int × List Char) :=
  match cs.dropWhile rustIsWhitespace with
  | [] => none
  | c :: rest =>
    if c = '-' then (scanNumber 1 rest.length rest).map fun p => (-(p.1 : Int), p.2)
    else if c = '+' then (scanNumber 1 rest.length rest).map fun p => ((p.1 : Int), p.2)
    else (scanNumber 1 4 (c :: rest)).map fun p => ((p.1 : Int), p.2)

/-- chrono's parsing of the `%m` and `%d` items: skip leading whitespace, then
consume one or two digits. -/
def scanField2 (cs : List Char) : Option (Nat × List Char) :=
  scanNumber 1 2 (cs.dropWhile rustIsWhitespace)

/-- Consume one expected literal character (chrono `Item::Literal`). -/
def expectChar (c : Char) : List Char → Option (List Char)
  | [] => none
  | x :: rest => if x = c then some rest else none

/-- `chrono::NaiveDate::parse_from_str(s, "%Y-%m-%d")`: scan year, literal
dash, month, literal dash, day; require the input to be fully consumed; then
validate the fields as a calendar date. -/
def parse_ymd (s : String) : Option NaiveDate :=
  match scanYear s.data with
  | none => none
  | some (y, r1) =>
    match expectChar '-' r1 with
    | none => none
    | some r2 =>
      match scanField2 r2 with
      | none => none
      | some (m, r3) =>
        match expectChar '-' r3 with
        | none => none
        | some r4 =>
          match scanField2 r4 with
          | none => none
          | some (d, r5) =>
            if r5.isEmpty then from_ymd_opt y m d else none

/-- The error message built in `get_date` (`src/main.rs:35`). -/
def invalidDateMsg : String := "Invalid date format (should be YYYY-MM-DD)"

/-- `get_date` from `src/main.rs:32-38`.  `today` is the value
`chrono::Local::now().date_naive()` that the `None` branch reads from the
clock, passed in explicitly. -/
def get_date (date_str : Option String) (today : NaiveDate) :
    Except String NaiveDate :=
  match date_str with
  | some s =>
    match parse_ymd s with
    | some dt => Except.ok dt
    | none => Except.error invalidDateMsg
  | none => Except.ok today

/-- The decimal digit character for `n` (defined for `n ≤ 9`; clamps above). -/
def digitChar (n : Nat) : Char :=
  match n with
  | 0 => '0'
  | 1 => '1'
  | 2 => '2'
  | 3 => '3'
  | 4 => '4'
  | 5 => '5'
  | 6 => '6'
  | 7 => '7'
  | 8 => '8'
  | _ => '9'

/-- `n` rendered as exactly two decimal digits, zero padded (Rust `{:02}`),
for `n ≤ 99`. -/
def pad2 (n : Nat) : List Char :=
  [digitChar (n / 10 % 10), digitChar (n % 10)]

/-- `n` rendered as exactly four decimal digits, zero padded (Rust `{:04}`),
for `n ≤ 9999`. -/
def pad4 (n : Nat) : List Char :=
  [digitChar (n / 1000 % 10), digitChar (n / 100 % 10),
   digitChar (n / 10 % 10), digitChar (n % 10)]

/-- Decimal digits of `n`, at least four, zero padded (Rust `{:04}` for
arbitrary magnitude). -/
def padAtLeast4 (n : Nat) : List Char :=
  if n ≤ 9999 then pad4 n else (Nat.repr n).data

/-- chrono's `Display` for `NaiveDate` (what `.to_string()` produces): a
four-digit zero-padded year for years 0–9999, otherwise an explicit sign and
at least four digits; then `-MM-DD` with two-digit zero-padded fields. -/
def NaiveDate.render (dt : NaiveDate) : String :=
  (if 0 ≤ dt.year ∧ dt.year ≤ 9999 then String.mk (pad4 dt.year.toNat)
   else (if dt.year < 0 then "-" else "+") ++ String.mk (padAtLeast4 dt.year.natAbs))
  ++ "-" ++ String.mk (pad2 dt.month) ++ "-" ++ String.mk (pad2 dt.day)


/-- The result of `OsStr::to_str()` for one path component: the component is
either valid UTF-8 text or a byte sequence that does not decode. -/
inductive Component where
  | text (s : String)
  | binary
deriving DecidableEq

/-- One file-system entry as the program observes it: the result of
`Path::file_name()` on its path, the last-modification timestamp (the result
of `fs::metadata(path).and_then(|m| m.modified())`, `none` when either read
fails), and the result of `Path::to_str()` on the full path. -/
structure FileEntry where
  fileName : Option Component
  modified : Option Int
  pathStr : Option String

/-- Rust `str::ends_with(suffix)`: byte-for-byte suffix comparison; on valid
UTF-8 this coincides with character-list suffix comparison because UTF-8 is
self-synchronising. -/
def ends_with (s suffix : String) : Bool :=
  List.isSuffixOf suffix.data s.data

/-- `has_suffix` from `src/main.rs:58-63`:
`path.file_name().and_then(|n| n.to_str()).map(|s| s.ends_with(suffix)).unwrap_or(false)`. -/
def has_suffix (path : FileEntry) (suffix : String) : Bool :=
  match path.fileName with
  | some (Component.text s) => ends_with s suffix
  | some Component.binary => false
  | none => false

/-- `match_date` from `src/main.rs:65-73`.  `localDate` is the ambient
conversion `|modified| DateTime::<Local>::from(modified).date_naive()` from a
modification timestamp to a calendar date in the local time zone. -/
def match_date (localDate : Int → NaiveDate) (path : FileEntry)
    (target_date : NaiveDate) : Bool :=
  match path.modified with
  | some ts => decide (localDate ts = target_date)
  | none => false

/-- Split a character list at every `/` (the pieces between separators, like
Rust's `Path` component scanning on Unix). -/
def splitSlash : List Char → List (List Char)
  | [] => [[]]
  | c :: cs =>
    if c = '/' then [] :: splitSlash cs
    else
      match splitSlash cs with
      | [] => [[c]]
      | p :: ps => (c :: p) :: ps

/-- Rust `Path::file_name()` (Unix) composed with `OsStr::to_str()` for a path
that is already a `&str`: the last `Normal` component — empty pieces and `"."`
pieces are dropped from the piece list; the result is `none` when the last
remaining piece is `".."` or no piece remains. -/
def file_name (path : String) : Option String :=
  match ((splitSlash path.data).filter fun c => !(c == []) && !(c == ['.'])).getLast? with
  | some last => if last = ['.', '.'] then none else some (String.mk last)
  | none => none

/-- `format_as_markdown` from `src/main.rs:40-48`: render a path as
`- [<filename>](<path>)`, falling back to the full path as the filename when
`file_name` yields nothing. -/
def format_as_markdown (path : String) : String :=
  let filename := (file_name path).getD path
  "- [" ++ filename ++ "](" ++ path ++ ")"

/-- A file-system tree rooted at a path: either a regular file or a directory
with children. -/
inductive FsNode where
  | file (entry : FileEntry)
  | dir (children : List FsNode)

mutual

/-- `file_iterator` from `src/main.rs:50-56`: `WalkDir` recursion filtered to
regular files.  `WalkDir::new` on a regular-file root yields that file itself;
on a directory it yields the files of every child, recursively (directories
themselves are dropped by the `is_file` filter). -/
def file_iterator : FsNode → List FileEntry
  | FsNode.file e => [e]
  | FsNode.dir cs => file_iterator_all cs

/-- The files of a list of sibling trees, in order. -/
def file_iterator_all : List FsNode → List FileEntry
  | [] => []
  | n :: ns => file_iterator n ++ file_iterator_all ns

end

/-- Observable outcome of one run of `main`: the process exit code, the lines
written to the error stream, and the lines written to the output stream. -/
structure RunResult where
  exitCode : Nat
  errOut : List String
  stdOut : List String
deriving DecidableEq

/-- `main` from `src/main.rs:75-99`.  `dateArg`, `suffix` and `rootStr` are
the already-parsed CLI values; `today` is the clock reading used when no date
is supplied; `localDate` is the local-time-zone conversion used by
`match_date`; `root` is the file-system tree at the root path, `none` when
`Path::new(&args.root).exists()` is false. -/
def runMain (dateArg : Option String) (suffix rootStr : String)
    (today : NaiveDate) (localDate : Int → NaiveDate)
    (root : Option FsNode) : RunResult :=
  match get_date dateArg today with
  | Except.error e => ⟨1, ["error: " ++ e], []⟩
  | Except.ok date =>
    match root with
    | none =>
      ⟨1, ["error: root directory \x27" ++ rootStr ++ "\x27 does not exist"], []⟩
    | some rootNode =>
      let files :=
        ((file_iterator rootNode).filter fun path => has_suffix path suffix).filter
          fun path => match_date localDate path date
      ⟨0, [], files.map fun file => format_as_markdown (file.pathStr.getD "")⟩

/-- A fixed calendar date, used to instantiate clock and time-zone parameters
in concrete evaluations. -/
def d0 : NaiveDate := ⟨2025, 1, 1⟩

/-- A file entry with nothing observable, used in concrete evaluations. -/
def entry0 : FileEntry := ⟨none, none, none⟩


/-- Every character produced by `digitChar` is an ASCII digit. -/
theorem digitChar_isDigit (n : Nat) : (digitChar n).isDigit = true := by
  unfold digitChar
  rcases n with _|_|_|_|_|_|_|_|_|n <;> rfl

/-- For `n < 10`, `digitChar n` has code point `48 + n`. -/
theorem digitChar_toNat (n : Nat) (h : n < 10) : (digitChar n).toNat = 48 + n := by
  interval_cases n <;> rfl

/-- Digit characters are not whitespace. -/
theorem digitChar_not_ws (n : Nat) : rustIsWhitespace (digitChar n) = false := by
  unfold digitChar
  rcases n with _|_|_|_|_|_|_|_|_|n <;> rfl

/-- Digit characters are not the minus sign. -/
theorem digitChar_ne_dash (n : Nat) : digitChar n ≠ '-' := by
  intro h
  have hd := digitChar_isDigit n
  rw [h] at hd
  exact absurd hd (by decide)

/-- Digit characters are not the plus sign. -/
theorem digitChar_ne_plus (n : Nat) : digitChar n ≠ '+' := by
  intro h
  have hd := digitChar_isDigit n
  rw [h] at hd
  exact absurd hd (by decide)

/-- `scanNumber 1 2` on a two-digit zero-padded rendering of `m ≤ 99`
followed by a non-digit (or nothing) returns `m` and the remainder. -/
theorem scanNumber_pad2 (m : Nat) (hm : m ≤ 99) (r : List Char)
    (hr : ∀ c, r.head? = some c → c.isDigit = false) :
    scanNumber 1 2 (pad2 m ++ r) = some (m, r) := by
  have e1 : (digitChar (m / 10 % 10)).toNat = 48 + m / 10 % 10 :=
    digitChar_toNat _ (Nat.mod_lt _ (by omega))
  have e2 : (digitChar (m % 10)).toNat = 48 + m % 10 :=
    digitChar_toNat _ (Nat.mod_lt _ (by omega))
  have hv : ((0 * 10 + ((digitChar (m / 10 % 10)).toNat - 48)) * 10 +
      ((digitChar (m % 10)).toNat - 48)) = m := by
    rw [e1, e2]; omega
  cases r with
  | nil =>
    simp [scanNumber, pad2, List.takeWhile_cons, digitChar_isDigit, hv, i64Max]
    omega
  | cons c rest =>
    have hc : c.isDigit = false := hr c rfl
    simp [scanNumber, pad2, List.takeWhile_cons, digitChar_isDigit, hc, hv, i64Max]
    omega

/-- `scanNumber 1 4` on a four-digit zero-padded rendering of `y ≤ 9999`
followed by a non-digit (or nothing) returns `y` and the remainder. -/
theorem scanNumber_pad4 (y : Nat) (hy : y ≤ 9999) (r : List Char)
    (hr : ∀ c, r.head? = some c → c.isDigit = false) :
    scanNumber 1 4 (pad4 y ++ r) = some (y, r) := by
  have e1 : (digitChar (y / 1000 % 10)).toNat = 48 + y / 1000 % 10 :=
    digitChar_toNat _ (Nat.mod_lt _ (by omega))
  have e2 : (digitChar (y / 100 % 10)).toNat = 48 + y / 100 % 10 :=
    digitChar_toNat _ (Nat.mod_lt _ (by omega))
  have e3 : (digitChar (y / 10 % 10)).toNat = 48 + y / 10 % 10 :=
    digitChar_toNat _ (Nat.mod_lt _ (by omega))
  have e4 : (digitChar (y % 10)).toNat = 48 + y % 10 :=
    digitChar_toNat _ (Nat.mod_lt _ (by omega))
  have hv : ((((0 * 10 + ((digitChar (y / 1000 % 10)).toNat - 48)) * 10 +
      ((digitChar (y / 100 % 10)).toNat - 48)) * 10 +
      ((digitChar (y / 10 % 10)).toNat - 48)) * 10 +
      ((digitChar (y % 10)).toNat - 48)) = y := by
    rw [e1, e2, e3, e4]; omega
  cases r with
  | nil =>
    simp [scanNumber, pad4, List.takeWhile_cons, digitChar_isDigit, hv, i64Max]
    omega
  | cons c rest =>
    have hc : c.isDigit = false := hr c rfl
    simp [scanNumber, pad4, List.takeWhile_cons, digitChar_isDigit, hc, hv, i64Max]
    omega

/-- Dropping leading whitespace does not change a list starting with a
two-digit rendering. -/
theorem dropWhile_ws_pad2 (m : Nat) (r : List Char) :
    (pad2 m ++ r).dropWhile rustIsWhitespace = pad2 m ++ r := by
  simp [pad2, List.dropWhile_cons, digitChar_not_ws]

/-- Dropping leading whitespace does not change a list starting with a
four-digit rendering. -/
theorem dropWhile_ws_pad4 (y : Nat) (r : List Char) :
    (pad4 y ++ r).dropWhile rustIsWhitespace = pad4 y ++ r := by
  simp [pad4, List.dropWhile_cons, digitChar_not_ws]

/-- `scanYear` on a four-digit zero-padded rendering of `y ≤ 9999` followed
by a non-digit (or nothing) returns `y` and the remainder. -/
theorem scanYear_pad4 (y : Nat) (hy : y ≤ 9999) (r : List Char)
    (hr : ∀ c, r.head? = some c → c.isDigit = false) :
    scanYear (pad4 y ++ r) = some ((y : Int), r) := by
  unfold scanYear
  rw [dropWhile_ws_pad4]
  simp only [pad4, List.cons_append]
  rw [if_neg (digitChar_ne_dash _), if_neg (digitChar_ne_plus _)]
  have hs := scanNumber_pad4 y hy r hr
  simp only [pad4, List.cons_append] at hs
  rw [hs]
  rfl

/-- No month has more than 31 days. -/
theorem daysInMonth_le (y : Int) (m : Nat) : daysInMonth y m ≤ 31 := by
  unfold daysInMonth
  split <;> first | omega | (split <;> omega)

/-- A date produced by `from_ymd_opt` is a valid calendar date. -/
theorem from_ymd_opt_valid {y : Int} {m d : Nat} {dt : NaiveDate}
    (h : from_ymd_opt y m d = some dt) : dateValid dt := by
  unfold from_ymd_opt at h
  split at h
  · cases h
    exact ‹_›
  · cases h

/-- Soundness of the date parser: any date it produces is a valid calendar
date in chrono range — impossible calendar dates are never returned. -/
theorem parse_ymd_valid (s : String) (dt : NaiveDate)
    (h : parse_ymd s = some dt) : dateValid dt := by
  unfold parse_ymd at h
  repeat' split at h
  all_goals first
  | cases h
  | exact from_ymd_opt_valid h

/-- Claim C1 (amended): `get_date (some s)` either returns a valid calendar
date or fails with the `InvalidDateFormat` message naming the expected format;
it fails exactly on the strings the chrono `%Y-%m-%d` parse rejects, which
includes every impossible calendar date.  (The accepted layout is lenient
rather than strict: see `get_date_strict_counterexample`.) -/
theorem get_date_some_spec (s : String) (today : NaiveDate) :
    (∀ dt, get_date (some s) today = Except.ok dt → dateValid dt) ∧
    (∀ e, get_date (some s) today = Except.error e → e = invalidDateMsg) ∧
    (parse_ymd s = none → get_date (some s) today = Except.error invalidDateMsg) := by
  refine ⟨?_, ?_, ?_⟩
  · intro dt h
    simp only [get_date] at h
    cases hp : parse_ymd s with
    | none => rw [hp] at h; cases h
    | some dt2 =>
      rw [hp] at h
      cases h
      exact parse_ymd_valid s dt hp
  · intro e h
    simp only [get_date] at h
    cases hp : parse_ymd s with
    | none => rw [hp] at h; cases h; rfl
    | some dt2 => rw [hp] at h; cases h
  · intro hp
    simp [get_date, hp]

/-- Claim C1, counterexample to the original statement: `"2025-1-3"` does not
match the strict two-digit-month/two-digit-day layout, yet `get_date` returns
a date for it instead of failing, because chrono accepts unpadded numeric
fields. -/
theorem get_date_strict_counterexample :
    get_date (some "2025-1-3") d0 = Except.ok ⟨2025, 1, 3⟩ := by
  have h : parse_ymd "2025-1-3" = some ⟨2025, 1, 3⟩ := by decide
  simp [get_date, h]

/-- Claim C1, witness: on the impossible calendar date `"2025-13-45"` the
resolver fails with the `InvalidDateFormat` message. -/
theorem get_date_some_spec_witness :
    get_date (some "2025-13-45") d0 = Except.error invalidDateMsg :=
  (get_date_some_spec "2025-13-45" d0).2.2 (by decide)

/-- Claim C2: the run exits with code 1 exactly when the supplied date string
is invalid or the root does not exist (and exits 0 otherwise, zero matches
included); on failure an error message is on the error stream and nothing was
written to the output stream — the run aborted before traversal. -/
theorem runMain_exit_spec (dateArg : Option String) (suffix rootStr : String)
    (today : NaiveDate) (localDate : Int → NaiveDate) (root : Option FsNode) :
    ((runMain dateArg suffix rootStr today localDate root).exitCode = 1 ↔
      ((∃ s, dateArg = some s ∧ parse_ymd s = none) ∨ root = none)) ∧
    ((runMain dateArg suffix rootStr today localDate root).exitCode = 1 ∨
      (runMain dateArg suffix rootStr today localDate root).exitCode = 0) ∧
    ((runMain dateArg suffix rootStr today localDate root).exitCode = 1 →
      (runMain dateArg suffix rootStr today localDate root).errOut ≠ [] ∧
        (runMain dateArg suffix rootStr today localDate root).stdOut = []) ∧
    ((runMain dateArg suffix rootStr today localDate root).exitCode = 0 →
      (runMain dateArg suffix rootStr today localDate root).errOut = []) := by
  cases dateArg with
  | none => cases root <;> simp [runMain, get_date]
  | some s =>
    cases hp : parse_ymd s with
    | none => cases root <;> simp [runMain, get_date, hp]
    | some dt => cases root <;> simp [runMain, get_date, hp]

/-- Claim C2, witness: a nonexistent root makes the run exit with code 1. -/
theorem runMain_exit_spec_witness :
    (runMain none ".go" "missing" d0 (fun _ => d0) none).exitCode = 1 :=
  (runMain_exit_spec none ".go" "missing" d0 (fun _ => d0) none).1.mpr (Or.inr rfl)

/-- Claim C3: `has_suffix` is true exactly when the final path component
decodes as text and ends, byte for byte, with the suffix; a non-decodable or
missing final component yields `false`, not an error. -/
theorem has_suffix_spec (path : FileEntry) (suffix : String) :
    (has_suffix path suffix = true ↔
      ∃ s t, path.fileName = some (Component.text s) ∧ t ++ suffix.data = s.data) ∧
    (path.fileName = some Component.binary → has_suffix path suffix = false) ∧
    (path.fileName = none → has_suffix path suffix = false) := by
  obtain ⟨fn, md, ps⟩ := path
  refine ⟨?_, ?_, ?_⟩
  · cases fn with
    | none => simp [has_suffix]
    | some c =>
      cases c with
      | binary => simp [has_suffix]
      | text s =>
        simp only [has_suffix, ends_with, List.isSuffixOf_iff_suffix]
        constructor
        · rintro ⟨t, ht⟩
          exact ⟨s, t, rfl, ht⟩
        · rintro ⟨s2, t, hs2, ht⟩
          cases hs2
          exact ⟨t, ht⟩
  · intro h
    cases h
    rfl
  · intro h
    cases h
    rfl

/-- Claim C3, witness: `"main.go"` ends with `".go"`. -/
theorem has_suffix_spec_witness :
    has_suffix ⟨some (Component.text "main.go"), none, none⟩ ".go" = true :=
  (has_suffix_spec ⟨some (Component.text "main.go"), none, none⟩ ".go").1.mpr
    ⟨"main.go", ['m', 'a', 'i', 'n'], rfl, by decide⟩

/-- Claim C9: with the empty suffix, every entry whose file name decodes as
text passes the suffix filter. -/
theorem has_suffix_empty (path : FileEntry) (s : String)
    (h : path.fileName = some (Component.text s)) :
    has_suffix path "" = true := by
  have he : ("" : String).data = [] := rfl
  simp [has_suffix, h, ends_with, List.isSuffixOf_iff_suffix, he]

/-- Claim C9, witness: an entry named `"README"` passes the empty suffix. -/
theorem has_suffix_empty_witness :
    has_suffix ⟨some (Component.text "README"), none, none⟩ "" = true :=
  has_suffix_empty ⟨some (Component.text "README"), none, none⟩ "README" rfl

/-- Claim C4: `match_date` is true exactly when the modification timestamp
could be read and its local calendar date equals the target date; an
unreadable timestamp yields `false`, never an error. -/
theorem match_date_spec (localDate : Int → NaiveDate) (path : FileEntry)
    (target : NaiveDate) :
    (match_date localDate path target = true ↔
      ∃ ts, path.modified = some ts ∧ localDate ts = target) ∧
    (path.modified = none → match_date localDate path target = false) := by
  obtain ⟨fn, md, ps⟩ := path
  refine ⟨?_, ?_⟩
  · cases md <;> simp [match_date]
  · intro h
    cases h
    rfl

/-- Claim C4, witness: an entry whose modification date is the target date
matches. -/
theorem match_date_spec_witness :
    match_date (fun _ => d0) ⟨none, some 5, none⟩ d0 = true :=
  (match_date_spec (fun _ => d0) ⟨none, some 5, none⟩ d0).1.mpr ⟨5, rfl, rfl⟩

/-- Claim C6: the suffix filter and the date filter commute, and their
composition equals one filter by the conjunction of the two predicates. -/
theorem filter_order_irrelevant (files : List FileEntry) (suffix : String)
    (localDate : Int → NaiveDate) (target : NaiveDate) :
    ((files.filter fun p => has_suffix p suffix).filter
        (fun p => match_date localDate p target) =
      (files.filter fun p => match_date localDate p target).filter
        (fun p => has_suffix p suffix)) ∧
    ((files.filter fun p => has_suffix p suffix).filter
        (fun p => match_date localDate p target) =
      files.filter fun p => has_suffix p suffix && match_date localDate p target) := by
  constructor
  · rw [List.filter_filter, List.filter_filter]
    exact List.filter_congr fun a _ => Bool.and_comm _ _
  · rw [List.filter_filter]
    exact List.filter_congr fun a _ => Bool.and_comm _ _

/-- Claim C7: `format_as_markdown` renders a path as `- [<filename>](<path>)`
with the final path component as the filename and the path exactly as given;
when no final component can be extracted, the full path stands in for the
filename. -/
theorem format_as_markdown_spec (path fn : String) :
    (file_name path = some fn →
      format_as_markdown path = "- [" ++ fn ++ "](" ++ path ++ ")") ∧
    (file_name path = none →
      format_as_markdown path = "- [" ++ path ++ "](" ++ path ++ ")") := by
  constructor <;> intro h <;> simp [format_as_markdown, h]

/-- Claim C7, witness: `"./tests/cli.rs"` keeps its relative prefix in the
link target and uses `"cli.rs"` as the link text. -/
theorem format_as_markdown_spec_witness :
    format_as_markdown "./tests/cli.rs" =
      "- [" ++ "cli.rs" ++ "](" ++ "./tests/cli.rs" ++ ")" :=
  (format_as_markdown_spec "./tests/cli.rs" "cli.rs").1 (by decide)

/-- Claim C8: with no date input, `get_date` always succeeds and returns the
local date read from the clock at call time. -/
theorem get_date_none_spec (today : NaiveDate) :
    get_date none today = Except.ok today := rfl

/-- Claim C10: a root that exists but is a regular file is not a root error:
the run exits 0 and the file itself is the single traversal entry, printed
exactly when it passes both predicates. -/
theorem runMain_root_file (dateArg : Option String) (suffix rootStr : String)
    (today d : NaiveDate) (localDate : Int → NaiveDate) (e : FileEntry)
    (h : get_date dateArg today = Except.ok d) :
    runMain dateArg suffix rootStr today localDate (some (FsNode.file e)) =
      ⟨0, [],
        if has_suffix e suffix && match_date localDate e d then
          [format_as_markdown (e.pathStr.getD "")]
        else []⟩ := by
  unfold runMain
  rw [h]
  cases h1 : has_suffix e suffix <;> cases h2 : match_date localDate e d <;>
    simp [file_iterator, List.filter, h1, h2]

/-- Claim C10, witness: a regular-file root with no observable name does not
fail; it merely fails the suffix predicate and yields no output. -/
theorem runMain_root_file_witness :
    runMain none ".go" "root.go" d0 (fun _ => d0) (some (FsNode.file entry0)) =
      ⟨0, [], []⟩ := by
  have h := runMain_root_file none ".go" "root.go" d0 d0 (fun _ => d0) entry0 rfl
  simpa [entry0, has_suffix] using h

/-- Claim C5: for every valid strict `YYYY-MM-DD` string (four digit year,
two digit month and day, forming a real calendar date), `get_date` succeeds
and the returned date renders back to the identical string. -/
theorem get_date_roundtrip (s : String) (y m d : Nat) (today : NaiveDate)
    (hs : s.data = pad4 y ++ '-' :: (pad2 m ++ '-' :: pad2 d))
    (hy : y ≤ 9999) (hm1 : 1 ≤ m) (hm2 : m ≤ 12) (hd1 : 1 ≤ d)
    (hd2 : d ≤ daysInMonth (y : Int) m) :
    get_date (some s) today = Except.ok ⟨(y : Int), m, d⟩ ∧
      NaiveDate.render ⟨(y : Int), m, d⟩ = s := by
  have hm99 : m ≤ 99 := by omega
  have hd99 : d ≤ 99 := le_trans hd2 (le_trans (daysInMonth_le _ _) (by omega))
  have h1 : ∀ c, (('-' :: (pad2 m ++ '-' :: pad2 d)) : List Char).head? = some c →
      c.isDigit = false := by
    intro c hc; rw [List.head?_cons] at hc; cases hc; decide
  have h2 : ∀ c, (('-' :: pad2 d) : List Char).head? = some c → c.isDigit = false := by
    intro c hc; rw [List.head?_cons] at hc; cases hc; decide
  have h3 : ∀ c, ([] : List Char).head? = some c → c.isDigit = false := by
    intro c hc; cases hc
  have e1 := scanYear_pad4 y hy _ h1
  have e2 := scanNumber_pad2 m hm99 ('-' :: pad2 d) h2
  have e3 : scanNumber 1 2 (pad2 d) = some (d, []) := by
    have := scanNumber_pad2 d hd99 [] h3
    simpa using this
  have hdw1 : ((pad2 m ++ '-' :: pad2 d) : List Char).dropWhile rustIsWhitespace =
      pad2 m ++ '-' :: pad2 d := dropWhile_ws_pad2 m _
  have hdw2 : (pad2 d).dropWhile rustIsWhitespace = pad2 d := by
    have := dropWhile_ws_pad2 d []
    simpa using this
  have hp : parse_ymd s = some ⟨(y : Int), m, d⟩ := by
    unfold parse_ymd scanField2
    rw [hs, e1]
    simp only [expectChar, if_pos, hdw1, hdw2, e2, e3, List.isEmpty_nil]
    unfold from_ymd_opt
    rw [if_pos]
    refine ⟨?_, ?_, hm1, hm2, hd1, hd2⟩
    · simp [minYear]; omega
    · simp [maxYear]; omega
  refine ⟨by simp [get_date, hp], ?_⟩
  apply String.ext
  rw [hs]
  unfold NaiveDate.render
  rw [if_pos (show 0 ≤ (y : Int) ∧ (y : Int) ≤ 9999 from
    ⟨Int.natCast_nonneg y, by exact_mod_cast hy⟩)]
  have hdash : ("-" : String).data = ['-'] := rfl
  have hmkd : ∀ l : List Char, (String.mk l).data = l := fun _ => rfl
  simp [String.data_append, Int.toNat_natCast, hdash, hmkd]

/-- Claim C5, witness: `"2025-12-25"` parses and renders back to itself. -/
theorem get_date_roundtrip_witness :
    get_date (some "2025-12-25") d0 = Except.ok ⟨2025, 12, 25⟩ ∧
      NaiveDate.render ⟨2025, 12, 25⟩ = "2025-12-25" :=
  get_date_roundtrip "2025-12-25" 2025 12 25 d0 (by decide) (by decide)
    (by decide) (by decide) (by decide) (by decide)
